import Mathlib

/-!
# Verification of the EPN pipeline engine

A shallow embedding, in Lean 4, of the generic pipeline engine of the
`epistemic_prop_network` repository, together with theorems settling the
specification claims about it.

The embedding follows the Python source closely:

* Python `dict` objects with string keys are modelled as association lists
  with unique keys in insertion order (`Dict`): assignment to an existing key
  replaces the value in place, assignment to a fresh key appends at the end,
  and `dict.update` folds assignments of the incoming entries over the
  existing dictionary.
* Python values that flow through the pipeline are either raw strings or
  one-level dictionaries of strings (`Value`); these are the only shapes the
  engine produces (node outputs are strings, a layer output is a dict of
  node-id to string).
* `re.findall(r'\x7b([^\x7d]+)\x7d', text)` is modelled by a character-level
  scanner (`extractPlaceholders`) with the same semantics: non-overlapping
  left-to-right matches of a brace, one or more non-closing-brace characters,
  and a closing brace.
* Exceptions are modelled with `Except`; error constructors carry exactly the
  data that the corresponding Python message interpolates.
* `sorted(...)` on lists of strings is modelled by insertion sort under
  code-point lexicographic order (`sortStrings`), matching Python string
  ordering.
-/

namespace EPN

/-- Python `dict` with string keys, as an association list with unique keys
in insertion order. -/
abbrev Dict (α : Type) : Type := List (String × α)

namespace Dict

/-- `d[k]` as an option: the value at the first (unique) occurrence of `k`. -/
def lookupD {α : Type} : Dict α → String → Option α
  | [], _ => none
  | (k, v) :: rest, q => if k = q then some v else lookupD rest q

/-- Python `k in d`. -/
def containsKey {α : Type} (d : Dict α) (k : String) : Bool :=
  (lookupD d k).isSome

/-- Python `list(d.keys())`, in insertion order. -/
def keys {α : Type} (d : Dict α) : List String :=
  d.map Prod.fst

/-- Python assignment `d[k] = v`: replace in place when `k` is present,
append otherwise. -/
def insertD {α : Type} : Dict α → String → α → Dict α
  | [], k, v => [(k, v)]
  | (k', v') :: rest, k, v =>
      if k' = k then (k', v) :: rest else (k', v') :: insertD rest k v

/-- Python `d.update(other)`: assign every entry of `other` into `d`,
left to right. -/
def updateD {α : Type} (d other : Dict α) : Dict α :=
  other.foldl (fun acc kv => insertD acc kv.1 kv.2) d

end Dict

/-- A value flowing between layers: a raw text, or a one-level dictionary of
texts (a whole layer output, as bound to the reserved `input` name). -/
inductive Value where
  | str : String → Value
  | dictOfStr : Dict String → Value
deriving DecidableEq

/-- Python single-quote character, for rendering `str()` of a dict. -/
def squote : String := (Char.ofNat 39).toString

/-- Python `str(value)` for the values the engine passes around: a string
renders as itself, a dict of strings as its Python repr. -/
def pyStr : Value → String
  | .str s => s
  | .dictOfStr d =>
      "\x7b" ++
        String.intercalate ", "
          (d.map (fun kv => squote ++ kv.1 ++ squote ++ ": " ++ squote ++ kv.2 ++ squote)) ++
      "\x7d"

/-! ## Placeholder extraction

`re.findall(r'\x7b([^\x7d]+)\x7d', text)`: scan left to right; at an opening
brace, greedily take one or more characters up to the next closing brace; an
empty group is not a match. The scanner state is `none` outside a candidate
match and `some acc` inside one (characters collected so far). -/

/-- One pass of the `findall` scan (see module comment). -/
def scanPH : List Char → Option (List Char) → List String
  | [], _ => []
  | c :: rest, none =>
      if c = '{' then scanPH rest (some []) else scanPH rest none
  | c :: rest, some acc =>
      if c = '}' then
        if acc.isEmpty then scanPH rest none
        else acc.asString :: scanPH rest none
      else scanPH rest (some (acc ++ [c]))

/-- All brace-delimited placeholder names of a text, in match order. -/
def extractPlaceholders (s : String) : List String :=
  scanPH s.data none

/-- A template's declared input context: either one string of placeholders or
an ordered list of such strings. -/
inductive InputCtx where
  | str : String → InputCtx
  | list : List String → InputCtx
deriving DecidableEq

/-- The placeholder names extracted from an input context, in reading order
(list items concatenated), duplicates kept.  The Python code collects these
either into a `list` (pipeline) or into a `set` (node); every use below is
insensitive to duplicates and to order of equal names, so the list form is a
faithful common model. -/
def ctxPlaceholders : InputCtx → List String
  | .str s => extractPlaceholders s
  | .list l => l.foldl (fun acc item => acc ++ extractPlaceholders item) []

/-- Code-point comparison of strings, matching Python string `<=` used by
`sorted`. -/
def charListLe : List Char → List Char → Bool
  | [], _ => true
  | _ :: _, [] => false
  | c :: cs, d :: ds =>
      if c.toNat < d.toNat then true
      else if d.toNat < c.toNat then false
      else charListLe cs ds

/-- Insert into a sorted list of strings. -/
def insertSorted (s : String) : List String → List String
  | [] => [s]
  | x :: xs => if charListLe s.data x.data then s :: x :: xs else x :: insertSorted s xs

/-- Python `sorted(list_of_strings)`. -/
def sortStrings (l : List String) : List String :=
  l.foldr insertSorted []

/-! ## Node: variable preparation

Embedding of `BasicLLMNode._prepare_variables` (src/epn_core/core/nodes.py,
lines 40-113).  Input data reaching a node is either a raw string (first
layer) or a keyed dictionary (later layers); the method builds the variable
mapping used for prompt rendering.  The Python code collects the extracted
placeholders into a `set` and iterates it; set iteration order is
unspecified, but the produced mapping's key-value content is independent of
that order (each placeholder is bound to a value fixed by its own name), so
iterating the extraction-order list with duplicates kept is a faithful
model of the mapping content.  The one order-sensitive observable is which
of several missing placeholders the dict branch's error names; this model
fixes extraction order as the representative iteration order, so the error
names the first missing placeholder in extraction order. -/

/-- The error raised by `_prepare_variables` for a dict input missing a
required placeholder; fields carry exactly the data interpolated into the
Python message (`Missing required input variable ... Available input
keys: ...`). -/
inductive NodeError where
  | missingVariable (placeholder node_id : String) (available_keys : List String)
deriving DecidableEq

deriving instance DecidableEq for Except

/-- Input data handed to a node: a raw string or a keyed dictionary. -/
inductive InputData where
  | str : String → InputData
  | dict : Dict Value → InputData

/-- One conditional pre-seeding assignment of the string-input branch:
`if name in placeholders: variables[name] = v`. -/
def seedStep (phs : List String) (name : String) (v : Value) (acc : Dict Value) : Dict Value :=
  if name ∈ phs then Dict.insertD acc name v else acc

/-- The trailing loop of the string-input branch: every placeholder not yet
bound is assigned the raw input text. -/
def fillRemaining (phs : List String) (input : String) (acc : Dict Value) : Dict Value :=
  match phs with
  | [] => acc
  | p :: rest =>
      if Dict.containsKey acc p then fillRemaining rest input acc
      else fillRemaining rest input (Dict.insertD acc p (Value.str input))

/-- String-input branch of `_prepare_variables`: seed `question`, `query`
(raw input) and `context_info` (empty text) when present in the placeholder
set, then assign the raw input to every remaining placeholder. -/
def prepareVariablesStr (phs : List String) (input : String) : Dict Value :=
  fillRemaining phs input
    (seedStep phs "context_info" (Value.str "")
      (seedStep phs "query" (Value.str input)
        (seedStep phs "question" (Value.str input) [])))

/-- Dict-input branch of `_prepare_variables`: copy each placeholder's value
from the input dictionary; an absent `context_info` becomes empty text; any
other absent placeholder raises, naming it and the available keys. -/
def prepareVariablesDictGo (node_id : String) (input : Dict Value) :
    List String → Dict Value → Except NodeError (Dict Value)
  | [], acc => .ok acc
  | p :: rest, acc =>
      match Dict.lookupD input p with
      | some v => prepareVariablesDictGo node_id input rest (Dict.insertD acc p v)
      | none =>
          if p = "context_info" then
            prepareVariablesDictGo node_id input rest (Dict.insertD acc p (Value.str ""))
          else
            .error (.missingVariable p node_id (Dict.keys input))

/-- Dict-input branch of `_prepare_variables`, started on an empty mapping. -/
def prepareVariablesDict (node_id : String) (phs : List String) (input : Dict Value) :
    Except NodeError (Dict Value) :=
  prepareVariablesDictGo node_id input phs []

/-- `BasicLLMNode._prepare_variables`: extract the placeholders of the node's
declared input context, then dispatch on the input shape. -/
def prepareVariables (node_id : String) (input_context : InputCtx) (input : InputData) :
    Except NodeError (Dict Value) :=
  let phs := ctxPlaceholders input_context
  match input with
  | .str s => .ok (prepareVariablesStr phs s)
  | .dict d => prepareVariablesDict node_id phs d

/-- The first extracted placeholder that is neither `context_info` nor a key
of the input dictionary — the one the dict branch's error names. -/
def firstMissing (input : Dict Value) (phs : List String) : Option String :=
  phs.find? (fun p => (p != "context_info") && !(Dict.containsKey input p))

/-! ## Template store

Embedding of `TemplateManager` (src/epn_core/config/template_manager.py): a
stored template carries its text, its declared placeholder list and its
metadata (the three keys the manager requires); `load_templates` installs a
set in replace or merge mode; `render_template` checks every declared
placeholder is provided and then substitutes them by sequential
`str.replace` of the provided values; `validate_templates` refuses an empty store and checks each
declared placeholder literally occurs brace-wrapped in the template text. -/

/-- A stored template: the `template`, `placeholders` and `metadata` entries
of one value of the manager's template dictionary. -/
structure StoredTemplate where
  template : String
  placeholders : List String
  metadata : Dict String
deriving DecidableEq

/-- Fuel-driven core of Python `str.replace`: leftmost non-overlapping
occurrences of `pat` replaced by `rep`.  The fuel starts at the text length
and dominates it throughout, so the zero-fuel arm is unreachable; fuel only
makes the recursion structural. -/
def replaceCLGo (pat rep : List Char) : Nat → List Char → List Char
  | 0, l => l
  | _ + 1, [] => []
  | fuel + 1, c :: rest =>
      if pat ≠ [] ∧ pat.isPrefixOf (c :: rest) then
        rep ++ replaceCLGo pat rep fuel (rest.drop (pat.length - 1))
      else
        c :: replaceCLGo pat rep fuel rest

/-- Python `s.replace(pat, rep)` (patterns in the engine are brace-wrapped
names, hence never empty). -/
def pyReplace (s pat rep : String) : String :=
  (replaceCLGo pat.data rep.data s.data.length s.data).asString

/-- Errors of `render_template`, carrying the data interpolated into the
Python `KeyError` / `ValueError` messages. -/
inductive RenderError where
  | templateNotFound (template_id : String)
  | missingVariables (template_id : String) (missing : List String)
deriving DecidableEq

/-- `TemplateManager.render_template`: look the template up, collect every
declared placeholder absent from the variable mapping (raising with the
full list if any), then substitute each declared placeholder by sequential
replacement.  The `getD` default in the substitution fold is unreachable:
the guard has established that every declared placeholder is a key of the
mapping. -/
def renderTemplate (store : Dict StoredTemplate) (template_id : String)
    (vars : Dict Value) : Except RenderError String :=
  match Dict.lookupD store template_id with
  | none => .error (.templateNotFound template_id)
  | some t =>
      let missing := t.placeholders.filter (fun p => !(Dict.containsKey vars p))
      if missing.isEmpty then
        .ok (t.placeholders.foldl
          (fun txt p =>
            pyReplace txt ("\x7b" ++ p ++ "\x7d")
              (pyStr ((Dict.lookupD vars p).getD (Value.str ""))))
          t.template)
      else .error (.missingVariables template_id missing)

/-- `TemplateManager.load_templates`: replace mode installs the incoming set
alone; merge mode assigns the incoming entries over the current store
(`dict.update`). -/
def load_templates (store incoming : Dict StoredTemplate) (replace : Bool) :
    Dict StoredTemplate :=
  if replace then incoming else Dict.updateD store incoming

/-- Python substring membership `pat in text` on character lists. -/
def containsSub (pat : List Char) : List Char → Bool
  | [] => pat.isEmpty
  | c :: rest => pat.isPrefixOf (c :: rest) || containsSub pat rest

/-- `TemplateManager._validate_single_template`, placeholder-consistency
part: the first declared placeholder whose brace-wrapped form does not occur
in the template text raises, naming the template and the placeholder.  (The
required-key and type checks of the Python code hold by construction of
`StoredTemplate`.) -/
def validate_single_template (template_id : String) (t : StoredTemplate) :
    Except String Unit :=
  match t.placeholders.find?
      (fun p => !(containsSub ("\x7b" ++ p ++ "\x7d").data t.template.data)) with
  | some p =>
      .error ("Template " ++ squote ++ template_id ++ squote ++ " placeholder " ++
        squote ++ p ++ squote ++ " not found in template text")
  | none => .ok ()

/-- Walk the stored templates in insertion order, stopping at the first
invalid one. -/
def validateTemplatesGo : List (String × StoredTemplate) → Except String Bool
  | [] => .ok true
  | (tid, t) :: rest =>
      match validate_single_template tid t with
      | .error e => .error e
      | .ok _ => validateTemplatesGo rest

/-- `TemplateManager.validate_templates`: an empty store raises
`No templates loaded`; otherwise every stored template is checked. -/
def validate_templates (store : Dict StoredTemplate) : Except String Bool :=
  if store.isEmpty then .error "No templates loaded"
  else validateTemplatesGo store

/-! ## Configuration model and validator

Embedding of the dataclasses of src/epn_core/core/node.py and
src/epn_core/core/llm_client.py and of `Validator`
(src/epn_core/config/validator.py).  Float LLM parameters are modelled as
rationals (the validator only compares them against exact bounds).
Validation errors carry the data interpolated into the corresponding Python
`ValueError` message; the `hasattr` required-field checks of
`validate_llm_configs` hold by construction of the `LLMConfig` structure. -/

/-- `LLMConfig` dataclass. -/
structure LLMConfig where
  model : String
  temperature : ℚ
  reasoning_effort : String
  max_tokens : Int
deriving DecidableEq

/-- `NodeConfig` dataclass. -/
structure NodeConfig where
  node_id : String
  name : String
  description : String
  node_type : String
  template_id : String
  llm_config : LLMConfig
deriving DecidableEq

/-- `LayerConfig` dataclass. -/
structure LayerConfig where
  layer_id : String
  name : String
  description : String
  nodes : List NodeConfig
deriving DecidableEq

/-- `PipelineConfig` dataclass. -/
structure PipelineConfig where
  layers : List LayerConfig
deriving DecidableEq

/-- The validator's error kinds, one per `raise ValueError` site. -/
inductive ValidationError where
  | noLayers
  | duplicateLayerIds (dups : List String)
  | duplicateNodeIdsInLayer (layer_id : String) (dups : List String)
  | duplicateNodeIdsAcross (dups : List String)
  | emptyLayer (layer_id : String)
  | tempOutOfRange (node_id : String) (temperature : ℚ)
  | maxTokensNotPositive (node_id : String) (max_tokens : Int)
  | invalidReasoningEffort (node_id effort : String)
  | missingTemplates (template_ids : List String)
deriving DecidableEq

/-- Python `[x for x in ids if ids.count(x) > 1]`. -/
def dupl (ids : List String) : List String :=
  ids.filter (fun x => decide (1 < ids.count x))

/-- Per-layer node-id duplicate check and node-id accumulation, the first
loop of `Validator.validate_pipeline_flow`. -/
def checkLayersNodes : List LayerConfig → List String → Except ValidationError (List String)
  | [], acc => .ok acc
  | layer :: rest, acc =>
      let ids := layer.nodes.map (fun n => n.node_id)
      if ids.length ≠ ids.dedup.length then
        .error (.duplicateNodeIdsInLayer layer.layer_id (dupl ids))
      else checkLayersNodes rest (acc ++ ids)

/-- The final loop of `validate_pipeline_flow`: the first layer with no
nodes raises. -/
def findEmptyLayer : List LayerConfig → Except ValidationError Bool
  | [] => .ok true
  | layer :: rest =>
      if layer.nodes.isEmpty then .error (.emptyLayer layer.layer_id)
      else findEmptyLayer rest

/-- `Validator.validate_pipeline_flow`: non-emptiness, duplicate layer ids,
duplicate node ids within each layer, duplicate node ids across layers,
empty layers — each check raising as soon as it fires (Python
`len(ids) != len(set(ids))` is `length ≠ dedup.length`). -/
def validate_pipeline_flow (cfg : PipelineConfig) : Except ValidationError Bool :=
  if cfg.layers.isEmpty then .error .noLayers
  else
    let layer_ids := cfg.layers.map (fun l => l.layer_id)
    if layer_ids.length ≠ layer_ids.dedup.length then
      .error (.duplicateLayerIds (dupl layer_ids))
    else
      match checkLayersNodes cfg.layers [] with
      | .error e => .error e
      | .ok all_node_ids =>
          if all_node_ids.length ≠ all_node_ids.dedup.length then
            .error (.duplicateNodeIdsAcross (dupl all_node_ids))
          else findEmptyLayer cfg.layers

/-- The per-node body of `Validator.validate_llm_configs`: temperature in
[0, 2], positive max output tokens, reasoning effort among
low/medium/high/default — raising at the first violated check. -/
def validateNodeLLM (node : NodeConfig) : Except ValidationError Unit :=
  if ¬ (0 ≤ node.llm_config.temperature ∧ node.llm_config.temperature ≤ 2) then
    .error (.tempOutOfRange node.node_id node.llm_config.temperature)
  else if node.llm_config.max_tokens ≤ 0 then
    .error (.maxTokensNotPositive node.node_id node.llm_config.max_tokens)
  else if ¬ (node.llm_config.reasoning_effort ∈ ["low", "medium", "high", "default"]) then
    .error (.invalidReasoningEffort node.node_id node.llm_config.reasoning_effort)
  else .ok ()

/-- Inner loop of `validate_llm_configs` over the nodes of one layer. -/
def validateNodesLLM : List NodeConfig → Except ValidationError Unit
  | [] => .ok ()
  | n :: rest =>
      match validateNodeLLM n with
      | .error e => .error e
      | .ok _ => validateNodesLLM rest

/-- Outer loop of `validate_llm_configs` over the layers. -/
def validateLayersLLM : List LayerConfig → Except ValidationError Unit
  | [] => .ok ()
  | l :: rest =>
      match validateNodesLLM l.nodes with
      | .error e => .error e
      | .ok _ => validateLayersLLM rest

/-- `Validator.validate_llm_configs`. -/
def validate_llm_configs (cfg : PipelineConfig) : Except ValidationError Bool :=
  match validateLayersLLM cfg.layers with
  | .error e => .error e
  | .ok _ => .ok true

/-- Python `set.add` modelled on a duplicate-free list (membership is what
the later checks consume; Python set iteration order is unspecified, so the
first-insertion order here fixes one representative order). -/
def pySetAdd (acc : List String) (x : String) : List String :=
  if x ∈ acc then acc else acc ++ [x]

/-- The `required_templates` set of
`Validator.validate_layer_template_compatibility`. -/
def requiredTemplateIds (cfg : PipelineConfig) : List String :=
  cfg.layers.foldl
    (fun acc l => l.nodes.foldl (fun acc2 n => pySetAdd acc2 n.template_id) acc) []

/-- `Validator.validate_layer_template_compatibility`: every template id some
node references must exist in the store; all missing ids are collected into
one error.  (Extra templates only produce a warning in the source.) -/
def validate_layer_template_compatibility (cfg : PipelineConfig)
    (store : Dict StoredTemplate) : Except ValidationError Bool :=
  let missing := (requiredTemplateIds cfg).filter (fun tid => !(Dict.containsKey store tid))
  if missing.isEmpty then .ok true else .error (.missingTemplates missing)

/-- `Validator.validate_complete_config`: pipeline flow, then LLM configs,
then template compatibility — each phase aborting the rest on failure. -/
def validate_complete_config (cfg : PipelineConfig)
    (store : Dict StoredTemplate) : Except ValidationError Bool :=
  match validate_pipeline_flow cfg with
  | .error e => .error e
  | .ok _ =>
      match validate_llm_configs cfg with
      | .error e => .error e
      | .ok _ => validate_layer_template_compatibility cfg store

/-! ## Layer

Embedding of `Layer` (src/epn_core/core/layer.py).  A runtime node is its
configured identifier, its bound template's input context, and its
processing function (prompt rendering plus the external client call of
`BasicLLMNode.process`, folded into one function of the input; the engine
treats the client as opaque).

`_process_parallel` schedules one task per node in registry (insertion)
order and collects results with `asyncio.gather`, which slots every result
back at its task's index however the tasks interleave.  The concurrency is
made explicit: a run of the layer is parameterized by its completion log —
the list of (task index, task outcome) pairs in the order the event loop
completed them, an arbitrary permutation of the canonical task-order log —
and `gather` recovers task order from the log by sorting on the index. -/

/-- A runtime node as the layer and pipeline see it. -/
structure RNode where
  node_id : String
  input_context : InputCtx
  run : InputData → Except NodeError String

/-- The outcome of each node's task, in task (configuration) order. -/
def outcomesOf (nodes : List RNode) (input : InputData) :
    List (Except NodeError String) :=
  nodes.map (fun nd => nd.run input)

/-- The canonical completion log: every task paired with its index, in task
order.  An actual run's log is any permutation of this list. -/
def canonicalLog (nodes : List RNode) (input : InputData) :
    List (Nat × Except NodeError String) :=
  (outcomesOf nodes input).enum

/-- Insert an indexed outcome into a log segment sorted by task index. -/
def insertByIdx (e : Nat × Except NodeError String) :
    List (Nat × Except NodeError String) → List (Nat × Except NodeError String)
  | [] => [e]
  | x :: xs => if e.1 ≤ x.1 then e :: x :: xs else x :: insertByIdx e xs

/-- Reorder a completion log by task index: the reassembly `asyncio.gather`
performs when it returns results in task order. -/
def sortByIdx (log : List (Nat × Except NodeError String)) :
    List (Nat × Except NodeError String) :=
  log.foldr insertByIdx []

/-- The result-collection loop of `_process_parallel`: walk node ids zipped
with gathered outcomes, re-raising the first exception, otherwise keying
each output by its node id. -/
def buildResults : List (String × Except NodeError String) → Dict String →
    Except NodeError (Dict String)
  | [], acc => .ok acc
  | (nid, out) :: rest, acc =>
      match out with
      | .error e => .error e
      | .ok v => buildResults rest (Dict.insertD acc nid v)

/-- `Layer._process_parallel`, explicit in the completion log (see the
section comment): gather in task order, then collect into the results
dictionary.  The log of an actual run on `input` is any permutation of
`canonicalLog nodes input`; that connection is a hypothesis of the theorems
below. -/
def processParallel (nodes : List RNode)
    (log : List (Nat × Except NodeError String)) : Except NodeError (Dict String) :=
  buildResults ((nodes.map (fun nd => nd.node_id)).zip ((sortByIdx log).map Prod.snd)) []

/-- The node registry of a built layer: its configuration and its nodes
keyed by node id in insertion order. -/
structure LayerState where
  layer_id : String
  nodes : Dict RNode

/-- `Layer.add_node`: a node whose id is already registered raises (the
message names the node id and the layer id) before any mutation; otherwise
the node is registered under its id. -/
def add_node (layer : LayerState) (node : RNode) : Except String LayerState :=
  if Dict.containsKey layer.nodes node.node_id then
    .error ("Node with id " ++ squote ++ node.node_id ++ squote ++
      " already exists in layer " ++ layer.layer_id)
  else .ok { layer with nodes := Dict.insertD layer.nodes node.node_id node }

/-! ## Pipeline: data-flow inference

Embedding of `Pipeline._prepare_input_for_next_layer`
(src/epn_core/core/pipeline.py, lines 229-297), the per-transition
resolution of the next layer's placeholders against the current layer's
output.  The `original_query` argument is the input text `process()`
captures at call start and passes unchanged to every transition; the
`isinstance(layer_output, dict)` guard of the source always holds here
because a layer output is a dictionary by construction. -/

/-- The error raised for an unsatisfiable placeholder; fields carry exactly
the data interpolated into the Python message: the placeholder, the
requiring node and layer, the upstream layer, and
`sorted(list(layer_output.keys()))`. -/
inductive PipelineError where
  | unresolvedPlaceholder (placeholder node_id next_layer_id current_layer_id : String)
      (available_outputs : List String)
deriving DecidableEq

/-- Modelled from the spec (§4.7): the claimed resolution rule for one
placeholder name — reserved `query` to the original input text, reserved
`input` to the whole previous layer output, any other name to its key in
that output.  Stated independently of the code so the code can be proved to
refine it. -/
def resolveName (original_query : String) (layer_output : Dict String)
    (name : String) : Option Value :=
  if name = "query" then some (Value.str original_query)
  else if name = "input" then some (Value.dictOfStr layer_output)
  else (Dict.lookupD layer_output name).map Value.str

/-- The inner placeholder loop of `_prepare_input_for_next_layer`: skip
already-mapped names, bind the reserved names, copy strict matches from the
layer output, and raise on anything else. -/
def resolvePlaceholders (original_query : String) (layer_output : Dict String)
    (current_layer_id next_layer_id node_id : String) :
    List String → Dict Value → Except PipelineError (Dict Value)
  | [], acc => .ok acc
  | p :: rest, acc =>
      if Dict.containsKey acc p then
        resolvePlaceholders original_query layer_output current_layer_id next_layer_id node_id
          rest acc
      else if p = "query" then
        resolvePlaceholders original_query layer_output current_layer_id next_layer_id node_id
          rest (Dict.insertD acc "query" (Value.str original_query))
      else if p = "input" then
        resolvePlaceholders original_query layer_output current_layer_id next_layer_id node_id
          rest (Dict.insertD acc "input" (Value.dictOfStr layer_output))
      else
        match Dict.lookupD layer_output p with
        | some v =>
            resolvePlaceholders original_query layer_output current_layer_id next_layer_id node_id
              rest (Dict.insertD acc p (Value.str v))
        | none =>
            .error (.unresolvedPlaceholder p node_id next_layer_id current_layer_id
              (sortStrings (Dict.keys layer_output)))

/-- The outer node loop of `_prepare_input_for_next_layer`, over the next
layer's nodes in registry order. -/
def resolveNodesPH (original_query : String) (layer_output : Dict String)
    (current_layer_id next_layer_id : String) :
    List RNode → Dict Value → Except PipelineError (Dict Value)
  | [], acc => .ok acc
  | nd :: rest, acc =>
      match resolvePlaceholders original_query layer_output current_layer_id next_layer_id
          nd.node_id (ctxPlaceholders nd.input_context) acc with
      | .error e => .error e
      | .ok acc' =>
          resolveNodesPH original_query layer_output current_layer_id next_layer_id rest acc'

/-- `Pipeline._prepare_input_for_next_layer` for a transition to a known
next layer: the mapping starts from the always-provided binding of `query`
to the original input text, then every placeholder of every next-layer node
is resolved. -/
def prepareInputForNextLayer (original_query : String) (layer_output : Dict String)
    (current_layer_id next_layer_id : String) (next_nodes : List RNode) :
    Except PipelineError (Dict Value) :=
  resolveNodesPH original_query layer_output current_layer_id next_layer_id next_nodes
    (Dict.insertD [] "query" (Value.str original_query))

/-- Invariant of the growing next-layer input mapping: every bound name is
bound to exactly what the resolution rule assigns it. -/
def Consistent (original_query : String) (layer_output : Dict String)
    (acc : Dict Value) : Prop :=
  ∀ k, Dict.lookupD acc k = none ∨
    Dict.lookupD acc k = resolveName original_query layer_output k

/-! ## Dictionary, variable-preparation and store lemmas -/

namespace Dict

theorem lookupD_insertD {α : Type} (d : Dict α) (k q : String) (v : α) :
    lookupD (insertD d k v) q = if k = q then some v else lookupD d q := by
  induction d with
  | nil => simp [insertD, lookupD]
  | cons hd tl ih =>
      obtain ⟨k', v'⟩ := hd
      by_cases hk : k' = k
      · subst hk
        by_cases hq : k' = q
        · subst hq; simp [insertD, lookupD]
        · simp [insertD, lookupD, hq]
      · by_cases hq : k' = q
        · subst hq
          have hkq : ¬ k = k' := fun h => hk h.symm
          simp [insertD, lookupD, hk, hkq]
        · simp [insertD, lookupD, hk, hq, ih]

theorem containsKey_insertD {α : Type} (d : Dict α) (k q : String) (v : α) :
    containsKey (insertD d k v) q = (k = q || containsKey d q) := by
  by_cases h : k = q <;> simp [containsKey, lookupD_insertD, h]

theorem lookupD_eq_none_of_not_mem_keys {α : Type} (d : Dict α) (k : String)
    (h : k ∉ keys d) : lookupD d k = none := by
  induction d with
  | nil => rfl
  | cons hd tl ih =>
      obtain ⟨k', v'⟩ := hd
      have hcons : keys ((k', v') :: tl) = k' :: keys tl := rfl
      have h1 : ¬ k' = k := by
        intro hq
        exact h (hcons ▸ (by rw [hq]; exact List.mem_cons_self k (keys tl)))
      have h2 : k ∉ keys tl := fun hq => h (hcons ▸ List.mem_cons_of_mem _ hq)
      simp [lookupD, h1, ih h2]

theorem mem_keys_of_lookupD_isSome {α : Type} (d : Dict α) (k : String)
    (h : (lookupD d k).isSome) : k ∈ keys d := by
  by_contra hmem
  rw [lookupD_eq_none_of_not_mem_keys d k hmem] at h
  simp at h

theorem insertD_of_not_containsKey {α : Type} (d : Dict α) (k : String) (v : α)
    (h : containsKey d k = false) : insertD d k v = d ++ [(k, v)] := by
  induction d with
  | nil => rfl
  | cons hd tl ih =>
      obtain ⟨k', v'⟩ := hd
      by_cases hk : k' = k
      · exfalso
        simp [containsKey, lookupD, hk] at h
      · have htl : containsKey tl k = false := by
          simpa [containsKey, lookupD, hk] using h
        simp [insertD, hk, ih htl]

theorem keys_insertD_of_not_containsKey {α : Type} (d : Dict α) (k : String) (v : α)
    (h : containsKey d k = false) : keys (insertD d k v) = keys d ++ [k] := by
  rw [insertD_of_not_containsKey d k v h]
  simp [keys]

end Dict

theorem containsKey_eq_false_iff {α : Type} (d : Dict α) (k : String) :
    Dict.containsKey d k = false ↔ Dict.lookupD d k = none := by
  unfold Dict.containsKey
  cases Dict.lookupD d k <;> simp

theorem seedStep_lookupD (phs : List String) (name : String) (v : Value)
    (acc : Dict Value) (q : String) :
    Dict.lookupD (seedStep phs name v acc) q =
      if q = name ∧ name ∈ phs then some v else Dict.lookupD acc q := by
  unfold seedStep
  by_cases hm : name ∈ phs
  · rw [if_pos hm, Dict.lookupD_insertD]
    by_cases hq : q = name
    · simp [hq, hm]
    · have hnq : ¬ name = q := fun h => hq h.symm
      simp [hq, hnq]
  · simp [hm]

theorem fillRemaining_lookupD (phs : List String) (input : String)
    (acc : Dict Value) (q : String) :
    Dict.lookupD (fillRemaining phs input acc) q =
      if q ∈ phs ∧ Dict.lookupD acc q = none then some (Value.str input)
      else Dict.lookupD acc q := by
  induction phs generalizing acc with
  | nil => simp [fillRemaining]
  | cons p rest ih =>
      by_cases hc : Dict.containsKey acc p = true
      · have hstep : fillRemaining (p :: rest) input acc = fillRemaining rest input acc := by
          simp [fillRemaining, hc]
        rw [hstep, ih]
        by_cases hq : q = p
        · subst hq
          have hsome : ¬ Dict.lookupD acc q = none := by
            intro hn
            rw [Dict.containsKey, hn] at hc
            simp at hc
          simp [hsome]
        · simp [List.mem_cons, hq]
      · have hc' : Dict.containsKey acc p = false := by
          cases h : Dict.containsKey acc p
          · rfl
          · exact absurd h hc
        have hnone : Dict.lookupD acc p = none := (containsKey_eq_false_iff acc p).mp hc'
        have hstep : fillRemaining (p :: rest) input acc =
            fillRemaining rest input (Dict.insertD acc p (Value.str input)) := by
          simp [fillRemaining, hc']
        rw [hstep, ih, Dict.lookupD_insertD]
        by_cases hq : p = q
        · subst hq
          simp [hnone]
        · have hq' : ¬ q = p := fun h => hq h.symm
          simp [hq, hq', List.mem_cons]

/-- Full characterization of the string-input variable mapping: every
extracted placeholder is bound — `context_info` to empty text, everything
else (including names that are neither `question` nor `query`) to the raw
input text — and nothing else is bound. -/
theorem prepareVariablesStr_lookupD (phs : List String) (input : String) (q : String) :
    Dict.lookupD (prepareVariablesStr phs input) q =
      if q ∈ phs then
        (if q = "context_info" then some (Value.str "") else some (Value.str input))
      else none := by
  unfold prepareVariablesStr
  rw [fillRemaining_lookupD, seedStep_lookupD, seedStep_lookupD, seedStep_lookupD]
  simp only [Dict.lookupD]
  by_cases hci : q = "context_info" <;>
    by_cases hqu : q = "query" <;>
      by_cases hqn : q = "question" <;>
        by_cases hm : q ∈ phs <;>
          simp_all

/-- The dict branch raises at the first placeholder that is neither
`context_info` nor an input key, naming it and the available keys, no matter
what was accumulated before. -/
theorem prepareVariablesDictGo_error (node_id : String) (input : Dict Value)
    (phs : List String) (acc : Dict Value) (p : String)
    (h : firstMissing input phs = some p) :
    prepareVariablesDictGo node_id input phs acc =
      .error (.missingVariable p node_id (Dict.keys input)) := by
  induction phs generalizing acc with
  | nil => simp [firstMissing, List.find?] at h
  | cons q rest ih =>
      unfold firstMissing at h
      rw [List.find?] at h
      by_cases hpred : ((q != "context_info") && !(Dict.containsKey input q)) = true
      · rw [hpred] at h
        simp only [Option.some.injEq] at h
        subst h
        have hq : ¬ q = "context_info" := by
          simp only [Bool.and_eq_true, bne_iff_ne, ne_eq] at hpred
          exact hpred.1
        have hnone : Dict.lookupD input q = none := by
          simp only [Bool.and_eq_true, Bool.not_eq_true'] at hpred
          exact (containsKey_eq_false_iff input q).mp hpred.2
        simp [prepareVariablesDictGo, hnone, hq]
      · have hfalse : ((q != "context_info") && !(Dict.containsKey input q)) = false := by
          cases hb : ((q != "context_info") && !(Dict.containsKey input q))
          · rfl
          · exact absurd hb hpred
        rw [hfalse] at h
        have h' : firstMissing input rest = some p := h
        by_cases hl : Dict.lookupD input q = none
        · have hci : q = "context_info" := by
            by_contra hci
            apply hpred
            simp [bne_iff_ne, hci, (containsKey_eq_false_iff input q).mpr hl]
          subst hci
          simp [prepareVariablesDictGo, hl, ih _ h']
        · obtain ⟨v, hv⟩ := Option.ne_none_iff_exists'.mp hl
          simp [prepareVariablesDictGo, hv, ih _ h']

theorem lookupD_updateD (A B : Dict StoredTemplate)
    (hB : (Dict.keys B).Nodup) (k : String) :
    Dict.lookupD (Dict.updateD A B) k =
      match Dict.lookupD B k with
      | some v => some v
      | none => Dict.lookupD A k := by
  induction B generalizing A with
  | nil => simp [Dict.updateD, Dict.lookupD]
  | cons b rest ih =>
      obtain ⟨bk, bv⟩ := b
      have hkeys : bk ∉ Dict.keys rest ∧ (Dict.keys rest).Nodup := by
        have : Dict.keys ((bk, bv) :: rest) = bk :: Dict.keys rest := rfl
        rw [this] at hB
        exact ⟨(List.nodup_cons.mp hB).1, (List.nodup_cons.mp hB).2⟩
      have hstep : Dict.updateD A ((bk, bv) :: rest) =
          Dict.updateD (Dict.insertD A bk bv) rest := rfl
      rw [hstep, ih _ hkeys.2]
      by_cases hk : bk = k
      · subst hk
        have hrest : Dict.lookupD rest bk = none :=
          Dict.lookupD_eq_none_of_not_mem_keys rest bk hkeys.1
        simp [Dict.lookupD, hrest, Dict.lookupD_insertD]
      · simp [Dict.lookupD, hk, Dict.lookupD_insertD]

/-! ## Gather reassembly: completion order cannot be observed -/

theorem insertByIdx_perm (e : Nat × Except NodeError String)
    (l : List (Nat × Except NodeError String)) :
    (insertByIdx e l).Perm (e :: l) := by
  induction l with
  | nil => exact List.Perm.refl _
  | cons x xs ih =>
      by_cases h : e.1 ≤ x.1
      · simp [insertByIdx, h]
      · simp only [insertByIdx, if_neg h]
        exact (List.Perm.cons x ih).trans (List.Perm.swap e x xs)

theorem sortByIdx_perm (l : List (Nat × Except NodeError String)) :
    (sortByIdx l).Perm l := by
  induction l with
  | nil => exact List.Perm.refl _
  | cons x xs ih =>
      have h1 : sortByIdx (x :: xs) = insertByIdx x (sortByIdx xs) := rfl
      rw [h1]
      exact (insertByIdx_perm x (sortByIdx xs)).trans (List.Perm.cons x ih)

theorem sorted_insertByIdx (e : Nat × Except NodeError String)
    (l : List (Nat × Except NodeError String))
    (h : l.Sorted (fun a b => a.1 ≤ b.1)) :
    (insertByIdx e l).Sorted (fun a b => a.1 ≤ b.1) := by
  induction l with
  | nil => simp [insertByIdx]
  | cons x xs ih =>
      rw [List.sorted_cons] at h
      by_cases hle : e.1 ≤ x.1
      · simp only [insertByIdx, if_pos hle]
        rw [List.sorted_cons]
        refine ⟨?_, List.sorted_cons.mpr h⟩
        intro b hb
        rcases List.mem_cons.mp hb with rfl | hb
        · exact hle
        · exact le_trans hle (h.1 b hb)
      · have hxe : x.1 ≤ e.1 := Nat.le_of_not_le hle
        simp only [insertByIdx, if_neg hle]
        rw [List.sorted_cons]
        refine ⟨?_, ih h.2⟩
        intro b hb
        rcases List.mem_cons.mp ((insertByIdx_perm e xs).mem_iff.mp hb) with rfl | hb
        · exact hxe
        · exact h.1 b hb

theorem sorted_sortByIdx (l : List (Nat × Except NodeError String)) :
    (sortByIdx l).Sorted (fun a b => a.1 ≤ b.1) := by
  induction l with
  | nil => simp [sortByIdx]
  | cons x xs ih => exact sorted_insertByIdx x _ ih

theorem sorted_lt_of_sorted_le_nodup (l : List (Nat × Except NodeError String))
    (hs : l.Sorted (fun a b => a.1 ≤ b.1)) (hn : (l.map Prod.fst).Nodup) :
    l.Sorted (fun a b => a.1 < b.1) := by
  induction l with
  | nil => simp
  | cons x xs ih =>
      rw [List.sorted_cons] at hs ⊢
      rw [List.map_cons, List.nodup_cons] at hn
      refine ⟨?_, ih hs.2 hn.2⟩
      intro b hb
      have h1 := hs.1 b hb
      have h2 : x.1 ≠ b.1 := by
        intro he
        exact hn.1 (he ▸ List.mem_map_of_mem Prod.fst hb)
      omega

theorem canonicalLog_nodup_fst (nodes : List RNode) (input : InputData) :
    ((canonicalLog nodes input).map Prod.fst).Nodup :=
  List.nodup_enum_map_fst _

theorem canonicalLog_sorted (nodes : List RNode) (input : InputData) :
    (canonicalLog nodes input).Sorted (fun a b => a.1 < b.1) := by
  have h : List.Pairwise (fun a b => a < b)
      ((canonicalLog nodes input).map Prod.fst) := by
    unfold canonicalLog
    rw [List.enum_map_fst]
    exact List.pairwise_lt_range _
  exact (List.pairwise_map).mp h

/-- However the tasks interleave, `gather`'s index-order reassembly of the
completion log recovers the canonical task-order log. -/
theorem sortByIdx_eq_canonical (nodes : List RNode) (input : InputData)
    (log : List (Nat × Except NodeError String))
    (h : log.Perm (canonicalLog nodes input)) :
    sortByIdx log = canonicalLog nodes input := by
  haveI : IsAntisymm (Nat × Except NodeError String) (fun a b => a.1 < b.1) :=
    ⟨fun a b h1 h2 => absurd (Nat.lt_trans h1 h2) (Nat.lt_irrefl _)⟩
  refine List.eq_of_perm_of_sorted (r := fun a b => a.1 < b.1)
    ((sortByIdx_perm log).trans h) ?_ ?_
  · apply sorted_lt_of_sorted_le_nodup _ (sorted_sortByIdx log)
    have hperm : ((sortByIdx log).map Prod.fst).Perm
        ((canonicalLog nodes input).map Prod.fst) :=
      ((sortByIdx_perm log).trans h).map Prod.fst
    exact hperm.nodup_iff.mpr (canonicalLog_nodup_fst nodes input)
  · exact canonicalLog_sorted nodes input

theorem buildResults_ok_keys (pairs : List (String × Except NodeError String))
    (acc res : Dict String)
    (hfresh : ∀ k ∈ pairs.map Prod.fst, Dict.containsKey acc k = false)
    (hnodup : (pairs.map Prod.fst).Nodup)
    (h : buildResults pairs acc = .ok res) :
    Dict.keys res = Dict.keys acc ++ pairs.map Prod.fst := by
  induction pairs generalizing acc with
  | nil =>
      simp only [buildResults, Except.ok.injEq] at h
      subst h
      simp
  | cons pr rest ih =>
      obtain ⟨nid, out⟩ := pr
      cases out with
      | error e => simp [buildResults] at h
      | ok v =>
          rw [buildResults] at h
          have hk : Dict.containsKey acc nid = false := hfresh nid (by simp)
          have hkeys' : Dict.keys (Dict.insertD acc nid v) = Dict.keys acc ++ [nid] :=
            Dict.keys_insertD_of_not_containsKey acc nid v hk
          rw [List.map_cons, List.nodup_cons] at hnodup
          have hfresh' : ∀ k ∈ rest.map Prod.fst,
              Dict.containsKey (Dict.insertD acc nid v) k = false := by
            intro k hkm
            rw [Dict.containsKey_insertD]
            have hne : ¬ nid = k := fun he => hnodup.1 (he ▸ hkm)
            simp [hne, hfresh k (List.mem_cons_of_mem _ hkm)]
          rw [ih (Dict.insertD acc nid v) hfresh' hnodup.2 h, hkeys']
          simp

/-! ## Data-flow resolution lemmas -/

theorem resolveName_eq_none_iff (q : String) (lo : Dict String) (name : String) :
    resolveName q lo name = none ↔
      name ≠ "query" ∧ name ≠ "input" ∧ Dict.lookupD lo name = none := by
  unfold resolveName
  by_cases h1 : name = "query" <;> by_cases h2 : name = "input" <;>
    simp [h1, h2]

theorem consistent_insert_fresh (q : String) (lo : Dict String) (acc : Dict Value)
    (name : String) (w : Value) (hJ : Consistent q lo acc)
    (hw : resolveName q lo name = some w)
    (hfresh : Dict.lookupD acc name = none) :
    Consistent q lo (Dict.insertD acc name w) ∧
    (∀ k v, Dict.lookupD acc k = some v →
       Dict.lookupD (Dict.insertD acc name w) k = some v) ∧
    Dict.lookupD (Dict.insertD acc name w) name = some w := by
  refine ⟨?_, ?_, ?_⟩
  · intro k
    rw [Dict.lookupD_insertD]
    by_cases hk : name = k
    · subst hk
      right
      simp [hw]
    · simp only [if_neg hk]
      exact hJ k
  · intro k v hv
    rw [Dict.lookupD_insertD]
    by_cases hk : name = k
    · subst hk
      rw [hfresh] at hv
      cases hv
    · simp [hk, hv]
  · rw [Dict.lookupD_insertD]
    simp

theorem resolvePlaceholders_spec (q : String) (lo : Dict String)
    (lid nlid nid : String) (ps : List String) :
    ∀ acc : Dict Value, Consistent q lo acc →
    (∀ acc', resolvePlaceholders q lo lid nlid nid ps acc = .ok acc' →
       Consistent q lo acc' ∧
       (∀ k v, Dict.lookupD acc k = some v → Dict.lookupD acc' k = some v) ∧
       (∀ p ∈ ps, ∃ v, resolveName q lo p = some v ∧ Dict.lookupD acc' p = some v)) ∧
    (∀ e, resolvePlaceholders q lo lid nlid nid ps acc = .error e →
       ∃ p ∈ ps, resolveName q lo p = none ∧
         e = .unresolvedPlaceholder p nid nlid lid (sortStrings (Dict.keys lo))) := by
  induction ps with
  | nil =>
      intro acc hJ
      constructor
      · intro acc' h
        rw [resolvePlaceholders] at h
        injection h with h
        subst h
        exact ⟨hJ, fun k v hv => hv, by simp⟩
      · intro e h
        rw [resolvePlaceholders] at h
        cases h
  | cons p rest ih =>
      intro acc hJ
      by_cases hc : Dict.containsKey acc p = true
      · have hred : resolvePlaceholders q lo lid nlid nid (p :: rest) acc =
            resolvePlaceholders q lo lid nlid nid rest acc := by
          rw [resolvePlaceholders]
          simp [hc]
        have hpv : ∃ v, resolveName q lo p = some v ∧ Dict.lookupD acc p = some v := by
          rcases hJ p with hnone | heq
          · rw [Dict.containsKey, hnone] at hc
            simp at hc
          · rw [Dict.containsKey] at hc
            obtain ⟨v, hv⟩ := Option.isSome_iff_exists.mp hc
            exact ⟨v, heq ▸ hv, hv⟩
        obtain ⟨hok, herr⟩ := ih acc hJ
        constructor
        · intro acc' h
          rw [hred] at h
          obtain ⟨hJ', hext, hall⟩ := hok acc' h
          refine ⟨hJ', hext, ?_⟩
          intro r hr
          rcases List.mem_cons.mp hr with rfl | hr
          · obtain ⟨v, hv1, hv2⟩ := hpv
            exact ⟨v, hv1, hext _ _ hv2⟩
          · exact hall r hr
        · intro e h
          rw [hred] at h
          obtain ⟨r, hr, hrn, he⟩ := herr e h
          exact ⟨r, List.mem_cons_of_mem _ hr, hrn, he⟩
      · have hcf : Dict.lookupD acc p = none := by
          rw [Dict.containsKey] at hc
          cases h : Dict.lookupD acc p
          · rfl
          · rw [h] at hc
            simp at hc
        have hbind : ∀ w : Value,
            resolveName q lo p = some w →
            resolvePlaceholders q lo lid nlid nid (p :: rest) acc =
              resolvePlaceholders q lo lid nlid nid rest (Dict.insertD acc p w) →
            (∀ acc', resolvePlaceholders q lo lid nlid nid (p :: rest) acc = .ok acc' →
               Consistent q lo acc' ∧
               (∀ k v, Dict.lookupD acc k = some v → Dict.lookupD acc' k = some v) ∧
               (∀ r ∈ p :: rest, ∃ v, resolveName q lo r = some v ∧
                  Dict.lookupD acc' r = some v)) ∧
            (∀ e, resolvePlaceholders q lo lid nlid nid (p :: rest) acc = .error e →
               ∃ r ∈ p :: rest, resolveName q lo r = none ∧
                 e = .unresolvedPlaceholder r nid nlid lid (sortStrings (Dict.keys lo))) := by
          intro w hw hred
          obtain ⟨hJ', hext1, hval⟩ := consistent_insert_fresh q lo acc p w hJ hw hcf
          obtain ⟨hok, herr⟩ := ih _ hJ'
          constructor
          · intro acc' h
            rw [hred] at h
            obtain ⟨hJ'', hext2, hall⟩ := hok acc' h
            refine ⟨hJ'', fun k v hv => hext2 _ _ (hext1 _ _ hv), ?_⟩
            intro r hr
            rcases List.mem_cons.mp hr with rfl | hr
            · exact ⟨w, hw, hext2 _ _ hval⟩
            · exact hall r hr
          · intro e h
            rw [hred] at h
            obtain ⟨r, hr, hrn, he⟩ := herr e h
            exact ⟨r, List.mem_cons_of_mem _ hr, hrn, he⟩
        by_cases hq : p = "query"
        · subst hq
          refine hbind (Value.str q) (by simp [resolveName]) ?_
          rw [resolvePlaceholders]
          simp [hc]
        · by_cases hi : p = "input"
          · subst hi
            refine hbind (Value.dictOfStr lo) (by simp [resolveName]) ?_
            rw [resolvePlaceholders]
            simp [hc]
          · cases hl : Dict.lookupD lo p with
            | some v =>
                refine hbind (Value.str v) (by simp [resolveName, hq, hi, hl]) ?_
                rw [resolvePlaceholders]
                simp [hc, hq, hi, hl]
            | none =>
                have hred : resolvePlaceholders q lo lid nlid nid (p :: rest) acc =
                    .error (.unresolvedPlaceholder p nid nlid lid
                      (sortStrings (Dict.keys lo))) := by
                  rw [resolvePlaceholders]
                  simp [hc, hq, hi, hl]
                constructor
                · intro acc' h
                  rw [hred] at h
                  cases h
                · intro e h
                  rw [hred] at h
                  injection h with h
                  subst h
                  exact ⟨p, List.mem_cons_self _ _,
                    by simp [resolveName, hq, hi, hl], rfl⟩

theorem resolveNodesPH_spec (q : String) (lo : Dict String) (lid nlid : String)
    (ns : List RNode) :
    ∀ acc : Dict Value, Consistent q lo acc →
    (∀ acc', resolveNodesPH q lo lid nlid ns acc = .ok acc' →
       Consistent q lo acc' ∧
       (∀ k v, Dict.lookupD acc k = some v → Dict.lookupD acc' k = some v) ∧
       (∀ nd ∈ ns, ∀ p ∈ ctxPlaceholders nd.input_context,
          ∃ v, resolveName q lo p = some v ∧ Dict.lookupD acc' p = some v)) ∧
    (∀ e, resolveNodesPH q lo lid nlid ns acc = .error e →
       ∃ nd ∈ ns, ∃ p ∈ ctxPlaceholders nd.input_context,
         resolveName q lo p = none ∧
         e = .unresolvedPlaceholder p nd.node_id nlid lid (sortStrings (Dict.keys lo))) := by
  induction ns with
  | nil =>
      intro acc hJ
      constructor
      · intro acc' h
        rw [resolveNodesPH] at h
        injection h with h
        subst h
        exact ⟨hJ, fun k v hv => hv, by simp⟩
      · intro e h
        rw [resolveNodesPH] at h
        cases h
  | cons nd rest ih =>
      intro acc hJ
      obtain ⟨hpOk, hpErr⟩ := resolvePlaceholders_spec q lo lid nlid nd.node_id
        (ctxPlaceholders nd.input_context) acc hJ
      cases hres : resolvePlaceholders q lo lid nlid nd.node_id
          (ctxPlaceholders nd.input_context) acc with
      | ok acc1 =>
          have hred : resolveNodesPH q lo lid nlid (nd :: rest) acc =
              resolveNodesPH q lo lid nlid rest acc1 := by
            rw [resolveNodesPH, hres]
          obtain ⟨hJ1, hext1, hall1⟩ := hpOk acc1 hres
          obtain ⟨hok, herr⟩ := ih acc1 hJ1
          constructor
          · intro acc' h
            rw [hred] at h
            obtain ⟨hJ2, hext2, hall2⟩ := hok acc' h
            refine ⟨hJ2, fun k v hv => hext2 _ _ (hext1 _ _ hv), ?_⟩
            intro m hm r hr
            rcases List.mem_cons.mp hm with rfl | hm
            · obtain ⟨v, hv1, hv2⟩ := hall1 r hr
              exact ⟨v, hv1, hext2 _ _ hv2⟩
            · exact hall2 m hm r hr
          · intro e h
            rw [hred] at h
            obtain ⟨m, hm, r, hr, hrn, he⟩ := herr e h
            exact ⟨m, List.mem_cons_of_mem _ hm, r, hr, hrn, he⟩
      | error e0 =>
          have hred : resolveNodesPH q lo lid nlid (nd :: rest) acc = .error e0 := by
            rw [resolveNodesPH, hres]
          constructor
          · intro acc' h
            rw [hred] at h
            cases h
          · intro e h
            rw [hred] at h
            injection h with h
            subst h
            obtain ⟨r, hr, hrn, he⟩ := hpErr e0 hres
            exact ⟨nd, List.mem_cons_self _ _, r, hr, hrn, he⟩

/-! ## Validator and renderer characterizations -/

theorem lookupD_isSome_of_mem_keys {α : Type} (d : Dict α) (k : String)
    (h : k ∈ Dict.keys d) : (Dict.lookupD d k).isSome := by
  induction d with
  | nil => cases h
  | cons hd tl ih =>
      obtain ⟨k', v'⟩ := hd
      by_cases hk : k' = k
      · simp [Dict.lookupD, hk]
      · have hmem : k ∈ Dict.keys tl := by
          rcases List.mem_cons.mp h with h1 | h1
          · exact absurd h1.symm hk
          · exact h1
        simp [Dict.lookupD, hk, ih hmem]

theorem validateNodeLLM_ok_iff (n : NodeConfig) :
    validateNodeLLM n = .ok () ↔
      (0 ≤ n.llm_config.temperature ∧ n.llm_config.temperature ≤ 2 ∧
       0 < n.llm_config.max_tokens ∧
       n.llm_config.reasoning_effort ∈ ["low", "medium", "high", "default"]) := by
  unfold validateNodeLLM
  by_cases h1 : (0 ≤ n.llm_config.temperature ∧ n.llm_config.temperature ≤ 2)
  · rw [if_neg (not_not.mpr h1)]
    by_cases h2 : n.llm_config.max_tokens ≤ 0
    · rw [if_pos h2]
      constructor
      · intro h; cases h
      · intro h
        have := h.2.2.1
        omega
    · rw [if_neg h2]
      by_cases h3 : n.llm_config.reasoning_effort ∈ ["low", "medium", "high", "default"]
      · rw [if_neg (not_not.mpr h3)]
        constructor
        · intro _
          exact ⟨h1.1, h1.2, by omega, h3⟩
        · intro _; rfl
      · rw [if_pos h3]
        constructor
        · intro h; cases h
        · intro h; exact absurd h.2.2.2 h3
  · rw [if_pos h1]
    constructor
    · intro h; cases h
    · intro h; exact absurd ⟨h.1, h.2.1⟩ h1

theorem validateNodesLLM_ok_iff (l : List NodeConfig) :
    validateNodesLLM l = .ok () ↔ ∀ n ∈ l, validateNodeLLM n = .ok () := by
  induction l with
  | nil => simp [validateNodesLLM]
  | cons n rest ih =>
      rw [validateNodesLLM]
      cases h : validateNodeLLM n with
      | error e =>
          constructor
          · intro hcontra; cases hcontra
          · intro hall
            have h2 := hall n (List.mem_cons_self _ _)
            rw [h2] at h
            cases h
      | ok u =>
          cases u
          simp only [ih]
          constructor
          · intro hall m hm
            rcases List.mem_cons.mp hm with rfl | hm
            · exact h
            · exact hall m hm
          · intro hall m hm
            exact hall m (List.mem_cons_of_mem _ hm)

theorem validateLayersLLM_ok_iff (l : List LayerConfig) :
    validateLayersLLM l = .ok () ↔ ∀ layer ∈ l, validateNodesLLM layer.nodes = .ok () := by
  induction l with
  | nil => simp [validateLayersLLM]
  | cons layer rest ih =>
      rw [validateLayersLLM]
      cases h : validateNodesLLM layer.nodes with
      | error e =>
          constructor
          · intro hcontra; cases hcontra
          · intro hall
            have h2 := hall layer (List.mem_cons_self _ _)
            rw [h2] at h
            cases h
      | ok u =>
          cases u
          simp only [ih]
          constructor
          · intro hall m hm
            rcases List.mem_cons.mp hm with rfl | hm
            · exact h
            · exact hall m hm
          · intro hall m hm
            exact hall m (List.mem_cons_of_mem _ hm)

theorem renderTemplate_missing_spec (store : Dict StoredTemplate) (tid : String)
    (vars : Dict Value) (t : StoredTemplate)
    (hlook : Dict.lookupD store tid = some t)
    (hmiss : ∃ p ∈ t.placeholders, Dict.containsKey vars p = false) :
    ∃ missing, renderTemplate store tid vars = .error (.missingVariables tid missing) ∧
      ∀ p, p ∈ missing ↔ (p ∈ t.placeholders ∧ Dict.containsKey vars p = false) := by
  unfold renderTemplate
  rw [hlook]
  have hne : (t.placeholders.filter (fun p => !(Dict.containsKey vars p))).isEmpty = false := by
    obtain ⟨p, hp, hpc⟩ := hmiss
    have hmem : p ∈ t.placeholders.filter (fun p => !(Dict.containsKey vars p)) :=
      List.mem_filter.mpr ⟨hp, by simp [hpc]⟩
    cases h : (t.placeholders.filter (fun p => !(Dict.containsKey vars p))).isEmpty
    · rfl
    · rw [List.isEmpty_iff] at h
      rw [h] at hmem
      cases hmem
  refine ⟨t.placeholders.filter (fun p => !(Dict.containsKey vars p)), by simp [hne], ?_⟩
  intro p
  rw [List.mem_filter]
  simp

/-! ## Claim theorems -/

/-- Claim C1 (confirmed): pipeline data-flow inference.  For every layer
transition, each placeholder extracted from a next-layer node's input
context resolves exactly by the spec's rule `resolveName` — reserved `query`
to the original input text (never the current layer's output), reserved
`input` to the whole previous layer output, any other name to its key in
that output — and when a name is none of these and not a key, the call
fails with an error naming the placeholder, the requiring node and layer,
the upstream layer, and the sorted list of keys that were available. -/
theorem dataflow_resolution (q : String) (lo : Dict String) (lid nlid : String)
    (nodes : List RNode) :
    (∀ vars, prepareInputForNextLayer q lo lid nlid nodes = .ok vars →
       Dict.lookupD vars "query" = some (Value.str q) ∧
       ∀ nd ∈ nodes, ∀ p ∈ ctxPlaceholders nd.input_context,
         ∃ v, resolveName q lo p = some v ∧ Dict.lookupD vars p = some v) ∧
    (∀ e, prepareInputForNextLayer q lo lid nlid nodes = .error e →
       ∃ nd ∈ nodes, ∃ p ∈ ctxPlaceholders nd.input_context,
         p ≠ "query" ∧ p ≠ "input" ∧ Dict.lookupD lo p = none ∧
         e = .unresolvedPlaceholder p nd.node_id nlid lid
           (sortStrings (Dict.keys lo))) ∧
    ((∃ nd ∈ nodes, ∃ p ∈ ctxPlaceholders nd.input_context,
        resolveName q lo p = none) →
       ∃ e, prepareInputForNextLayer q lo lid nlid nodes = .error e) := by
  have hq0 : Dict.lookupD (Dict.insertD ([] : Dict Value) "query" (Value.str q)) "query" =
      some (Value.str q) := by
    rw [Dict.lookupD_insertD]
    simp
  have hJ0 : Consistent q lo (Dict.insertD [] "query" (Value.str q)) := by
    intro k
    rw [Dict.lookupD_insertD]
    by_cases hk : "query" = k
    · subst hk
      right
      simp [resolveName]
    · left
      simp [hk, Dict.lookupD]
  obtain ⟨hok, herr⟩ := resolveNodesPH_spec q lo lid nlid nodes _ hJ0
  refine ⟨?_, ?_, ?_⟩
  · intro vars h
    obtain ⟨hJ1, hext, hall⟩ := hok vars h
    exact ⟨hext _ _ hq0, hall⟩
  · intro e h
    obtain ⟨nd, hnd, p, hp, hrn, he⟩ := herr e h
    rw [resolveName_eq_none_iff] at hrn
    exact ⟨nd, hnd, p, hp, hrn.1, hrn.2.1, hrn.2.2, he⟩
  · rintro ⟨nd, hnd, p, hp, hrn⟩
    cases hres : prepareInputForNextLayer q lo lid nlid nodes with
    | ok vars =>
        obtain ⟨hJ1, hext, hall⟩ := hok vars hres
        obtain ⟨v, hv, _⟩ := hall nd hnd p hp
        rw [hrn] at hv
        cases hv
    | error e => exact ⟨e, rfl⟩

/-- Concrete instance of C1: a two-output upstream layer feeding a node that
asks for `a_out`: the prepared input binds `query` to the original text and
`a_out` as the resolution rule dictates. -/
theorem dataflow_resolution_witness :
    Dict.lookupD [("query", Value.str "Q"), ("a_out", Value.str "A"),
      ("b_out", Value.str "B")] "query" = some (Value.str "Q") ∧
    ∃ v, resolveName "Q" [("a_out", "A"), ("b_out", "B")] "a_out" = some v ∧
      Dict.lookupD [("query", Value.str "Q"), ("a_out", Value.str "A"),
        ("b_out", Value.str "B")] "a_out" = some v := by
  have h := (dataflow_resolution "Q" [("a_out", "A"), ("b_out", "B")] "L2" "L3"
    [⟨"out", InputCtx.list ["\x7ba_out\x7d", "\x7bb_out\x7d"], fun _ => Except.ok ""⟩]).1
    [("query", Value.str "Q"), ("a_out", Value.str "A"), ("b_out", Value.str "B")] rfl
  exact ⟨h.1, h.2 _ (List.mem_singleton.mpr rfl) "a_out" (by decide)⟩

/-- Counterexample to C2 as stated: `context_info`, absent from an empty
input dictionary, does not make the node fail — it is silently substituted
with empty text. -/
theorem context_info_empty_substitution :
    "context_info" ∈ ctxPlaceholders (.str "\x7bcontext_info\x7d") ∧
    Dict.lookupD ([] : Dict Value) "context_info" = none ∧
    prepareVariables "n1" (.str "\x7bcontext_info\x7d") (.dict []) =
      .ok [("context_info", Value.str "")] :=
  ⟨by decide, rfl, rfl⟩

/-- Claim C2 (amended): for a dict input, the first extracted placeholder
other than `context_info` that is absent from the input's keys makes the
node fail with an error naming that placeholder and the available keys
(an absent `context_info` is instead substituted with empty text, see the
counterexample). -/
theorem missing_variable_failure (node_id : String) (ctx : InputCtx)
    (input : Dict Value) (p : String)
    (h : firstMissing input (ctxPlaceholders ctx) = some p) :
    p ∈ ctxPlaceholders ctx ∧ p ≠ "context_info" ∧ Dict.lookupD input p = none ∧
    prepareVariables node_id ctx (.dict input) =
      .error (.missingVariable p node_id (Dict.keys input)) := by
  have hmem := List.mem_of_find?_eq_some h
  have hpred := List.find?_some h
  simp only [Bool.and_eq_true, bne_iff_ne, ne_eq, Bool.not_eq_true'] at hpred
  refine ⟨hmem, hpred.1, (containsKey_eq_false_iff input p).mp hpred.2, ?_⟩
  exact prepareVariablesDictGo_error node_id input (ctxPlaceholders ctx) [] p h

/-- Concrete instance of C2 (amended): placeholder `foo` absent from a dict
with key `bar` fails, naming `foo` and listing `bar`. -/
theorem missing_variable_failure_witness :
    "foo" ∈ ctxPlaceholders (.str "\x7bfoo\x7d") ∧ "foo" ≠ "context_info" ∧
    Dict.lookupD ([("bar", Value.str "1")] : Dict Value) "foo" = none ∧
    prepareVariables "n2" (.str "\x7bfoo\x7d") (.dict [("bar", Value.str "1")]) =
      .error (.missingVariable "foo" "n2" ["bar"]) :=
  missing_variable_failure "n2" (.str "\x7bfoo\x7d") [("bar", Value.str "1")] "foo"
    (by decide)

/-- Counterexample to C3 as stated: for a raw-text input, the placeholder
`foo` — neither `question` nor `query` — is nonetheless bound to the raw
input text by the trailing fallback loop of `_prepare_variables`. -/
theorem raw_input_fallback_binding :
    ¬ ("foo" = "question" ∨ "foo" = "query") ∧
    prepareVariables "n1" (.str "\x7bfoo\x7d") (.str "x") =
      .ok [("foo", Value.str "x")] :=
  ⟨by decide, rfl⟩

/-- Claim C3 (amended): for a raw-text input the variable mapping binds
every extracted placeholder — `context_info` to empty text and every other
placeholder (the reserved `question` and `query` included) to the raw input
text — and binds nothing else. -/
theorem raw_input_binding_spec (node_id : String) (ctx : InputCtx)
    (input : String) (q : String) :
    ∃ vars, prepareVariables node_id ctx (.str input) = .ok vars ∧
      Dict.lookupD vars q =
        (if q ∈ ctxPlaceholders ctx then
          (if q = "context_info" then some (Value.str "") else some (Value.str input))
         else none) :=
  ⟨prepareVariablesStr (ctxPlaceholders ctx) input, rfl,
    prepareVariablesStr_lookupD (ctxPlaceholders ctx) input q⟩

/-- Counterexample to C4 as stated: the variable mapping provides `b`, and
`\x7bb\x7d` occurs in the template text, yet rendering leaves `\x7bb\x7d`
in place because `b` is not in the template's declared placeholder list —
substitution is driven by the declared list, not by the mapping's keys. -/
theorem render_extra_key_not_substituted :
    Dict.containsKey [("a", Value.str "x"), ("b", Value.str "y")] "b" = true ∧
    renderTemplate [("t", (⟨"\x7ba\x7d \x7bb\x7d", ["a"], []⟩ : StoredTemplate))] "t"
      [("a", Value.str "x"), ("b", Value.str "y")] = .ok "x \x7bb\x7d" :=
  ⟨rfl, rfl⟩

/-- Claim C4 (amended): rendering substitutes the brace-wrapped occurrences
of every placeholder in the template's declared list using the provided
values, and fails, naming exactly the declared placeholders absent from the
mapping, whenever any declared placeholder is missing. -/
theorem render_declared_spec (store : Dict StoredTemplate) (tid : String)
    (vars : Dict Value) (t : StoredTemplate)
    (hlook : Dict.lookupD store tid = some t) :
    ((∀ p ∈ t.placeholders, Dict.containsKey vars p = true) →
       renderTemplate store tid vars =
         .ok (t.placeholders.foldl (fun txt p =>
           pyReplace txt ("\x7b" ++ p ++ "\x7d")
             (pyStr ((Dict.lookupD vars p).getD (Value.str "")))) t.template)) ∧
    ((∃ p ∈ t.placeholders, Dict.containsKey vars p = false) →
       ∃ missing, renderTemplate store tid vars = .error (.missingVariables tid missing) ∧
         ∀ p, p ∈ missing ↔ (p ∈ t.placeholders ∧ Dict.containsKey vars p = false)) := by
  constructor
  · intro hall
    unfold renderTemplate
    rw [hlook]
    have hempty : (t.placeholders.filter (fun p => !(Dict.containsKey vars p))) = [] := by
      rw [List.filter_eq_nil_iff]
      intro p hp
      simp [hall p hp]
    simp [hempty]
  · exact renderTemplate_missing_spec store tid vars t hlook

/-- Concrete instance of C4 (amended): a declared placeholder is substituted
through to the rendered text. -/
theorem render_declared_spec_witness :
    renderTemplate [("t", (⟨"\x7ba\x7d!", ["a"], []⟩ : StoredTemplate))] "t"
      [("a", Value.str "x")] = .ok "x!" := by
  have h := (render_declared_spec [("t", (⟨"\x7ba\x7d!", ["a"], []⟩ : StoredTemplate))] "t"
    [("a", Value.str "x")] ⟨"\x7ba\x7d!", ["a"], []⟩ rfl).1 (by decide)
  rw [h]
  rfl

/-- Counterexample to C5 as stated: two nodes violate the LLM temperature
range in the same validation phase, yet the raised error reports only the
first — the phase does not collect every violation into one report. -/
theorem validator_first_violation_only :
    validateNodeLLM ⟨"n2", "", "", "", "t", ⟨"m", 3, "low", 100⟩⟩ =
      .error (.tempOutOfRange "n2" 3) ∧
    validate_complete_config
      ⟨[⟨"L1", "", "", [⟨"n1", "", "", "", "t", ⟨"m", 3, "low", 100⟩⟩,
                        ⟨"n2", "", "", "", "t", ⟨"m", 3, "low", 100⟩⟩]⟩]⟩ [] =
      .error (.tempOutOfRange "n1" 3) :=
  ⟨rfl, rfl⟩

/-- Claim C5 (amended): only the template-reference phase batches: when the
structural and LLM phases pass and some referenced template is absent from
the store, the raised report lists exactly the referenced-but-absent
template ids — every one of them (the structural duplicate checks likewise
list all duplicates of one kind, while the LLM phase stops at the first
violating node, see the counterexample). -/
theorem validator_batching_spec (cfg : PipelineConfig) (store : Dict StoredTemplate)
    (hflow : validate_pipeline_flow cfg = .ok true)
    (hllm : validate_llm_configs cfg = .ok true)
    (hmiss : ∃ tid ∈ requiredTemplateIds cfg, Dict.containsKey store tid = false) :
    ∃ missing, validate_complete_config cfg store = .error (.missingTemplates missing) ∧
      ∀ tid, tid ∈ missing ↔
        (tid ∈ requiredTemplateIds cfg ∧ Dict.containsKey store tid = false) := by
  have hred : validate_complete_config cfg store =
      validate_layer_template_compatibility cfg store := by
    unfold validate_complete_config
    rw [hflow, hllm]
  rw [hred]
  unfold validate_layer_template_compatibility
  have hne : ((requiredTemplateIds cfg).filter
      (fun tid => !(Dict.containsKey store tid))).isEmpty = false := by
    obtain ⟨tid, htid, hc⟩ := hmiss
    have hmem : tid ∈ (requiredTemplateIds cfg).filter
        (fun tid => !(Dict.containsKey store tid)) :=
      List.mem_filter.mpr ⟨htid, by simp [hc]⟩
    cases h : ((requiredTemplateIds cfg).filter
        (fun tid => !(Dict.containsKey store tid))).isEmpty
    · rfl
    · rw [List.isEmpty_iff] at h
      rw [h] at hmem
      cases hmem
  refine ⟨(requiredTemplateIds cfg).filter (fun tid => !(Dict.containsKey store tid)),
    by simp [hne], ?_⟩
  intro tid
  rw [List.mem_filter]
  simp

/-- Concrete instance of C5 (amended): both dangling template references of
a two-node pipeline are collected into the one raised report. -/
theorem validator_batching_spec_witness :
    ∃ missing,
      validate_complete_config
        ⟨[⟨"L1", "", "", [⟨"n1", "", "", "", "tA", ⟨"m", 1, "low", 100⟩⟩,
                          ⟨"n2", "", "", "", "tB", ⟨"m", 1, "low", 100⟩⟩]⟩]⟩ [] =
        .error (.missingTemplates missing) ∧
      ∀ tid, tid ∈ missing ↔
        (tid ∈ requiredTemplateIds
            ⟨[⟨"L1", "", "", [⟨"n1", "", "", "", "tA", ⟨"m", 1, "low", 100⟩⟩,
                              ⟨"n2", "", "", "", "tB", ⟨"m", 1, "low", 100⟩⟩]⟩]⟩ ∧
         Dict.containsKey ([] : Dict StoredTemplate) tid = false) :=
  validator_batching_spec
    ⟨[⟨"L1", "", "", [⟨"n1", "", "", "", "tA", ⟨"m", 1, "low", 100⟩⟩,
                      ⟨"n2", "", "", "", "tB", ⟨"m", 1, "low", 100⟩⟩]⟩]⟩ []
    rfl rfl ⟨"tA", by decide, rfl⟩

/-- Counterexample to C6 as stated: a reasoning effort of `default` is none
of low, medium, high, yet the validator accepts it. -/
theorem reasoning_effort_default_accepted :
    ¬ ("default" ∈ (["low", "medium", "high"] : List String)) ∧
    validate_llm_configs
      ⟨[⟨"L1", "", "", [⟨"n1", "", "", "", "t", ⟨"m", 1, "default", 100⟩⟩]⟩]⟩ =
      .ok true :=
  ⟨by decide, rfl⟩

/-- Claim C6 (amended): the LLM-parameter phase passes exactly when every
node's temperature lies in [0, 2], its max output tokens is positive, and
its reasoning effort is one of low, medium, high or `default`; otherwise it
raises. -/
theorem llm_range_validation (cfg : PipelineConfig) :
    (validate_llm_configs cfg = .ok true ↔
      ∀ layer ∈ cfg.layers, ∀ n ∈ layer.nodes,
        0 ≤ n.llm_config.temperature ∧ n.llm_config.temperature ≤ 2 ∧
        0 < n.llm_config.max_tokens ∧
        n.llm_config.reasoning_effort ∈ ["low", "medium", "high", "default"]) ∧
    (validate_llm_configs cfg = .ok true ∨
      ∃ e, validate_llm_configs cfg = .error e) := by
  constructor
  · unfold validate_llm_configs
    cases h : validateLayersLLM cfg.layers with
    | error e =>
        constructor
        · intro hcontra
          cases hcontra
        · intro hall
          have h2 : validateLayersLLM cfg.layers = .ok () := by
            rw [validateLayersLLM_ok_iff]
            intro layer hl
            rw [validateNodesLLM_ok_iff]
            intro n hn
            rw [validateNodeLLM_ok_iff]
            exact hall layer hl n hn
          rw [h2] at h
          cases h
    | ok u =>
        cases u
        constructor
        · intro _ layer hl n hn
          rw [← validateNodeLLM_ok_iff]
          have h2 := (validateLayersLLM_ok_iff cfg.layers).mp h layer hl
          exact (validateNodesLLM_ok_iff layer.nodes).mp h2 n hn
        · intro _
          rfl
  · unfold validate_llm_configs
    cases h : validateLayersLLM cfg.layers with
    | error e => exact Or.inr ⟨e, rfl⟩
    | ok u =>
        cases u
        exact Or.inl rfl

/-- Claim C7 (confirmed): a PARALLEL layer whose nodes carry distinct ids,
when it succeeds, returns a mapping keyed exactly by the configured node
ids in configuration order, and the result is identical under any other
completion order of the concurrent tasks. -/
theorem parallel_keys_config_order (nodes : List RNode) (input : InputData)
    (log log2 : List (Nat × Except NodeError String)) (res : Dict String)
    (hids : (nodes.map RNode.node_id).Nodup)
    (hlog : log.Perm (canonicalLog nodes input))
    (hlog2 : log2.Perm (canonicalLog nodes input))
    (hok : processParallel nodes log = .ok res) :
    Dict.keys res = nodes.map RNode.node_id ∧
    processParallel nodes log2 = .ok res := by
  have hsort : sortByIdx log = canonicalLog nodes input :=
    sortByIdx_eq_canonical nodes input log hlog
  have hsort2 : sortByIdx log2 = canonicalLog nodes input :=
    sortByIdx_eq_canonical nodes input log2 hlog2
  constructor
  · have hlen : (nodes.map (fun nd => nd.node_id)).length ≤
        ((sortByIdx log).map Prod.snd).length := by
      rw [hsort]
      simp [canonicalLog, outcomesOf]
    have hfst : (((nodes.map (fun nd => nd.node_id)).zip
        ((sortByIdx log).map Prod.snd)).map Prod.fst) = nodes.map (fun nd => nd.node_id) :=
      List.map_fst_zip _ _ hlen
    have hok2 : buildResults
        ((nodes.map (fun nd => nd.node_id)).zip ((sortByIdx log).map Prod.snd)) [] =
        .ok res := hok
    have hkeys := buildResults_ok_keys
      ((nodes.map (fun nd => nd.node_id)).zip ((sortByIdx log).map Prod.snd)) [] res
      (fun k _ => rfl) (by rw [hfst]; exact hids) hok2
    rw [hkeys, hfst]
    rfl
  · have heq : processParallel nodes log2 = processParallel nodes log := by
      unfold processParallel
      rw [hsort, hsort2]
    rw [heq]
    exact hok

/-- Concrete instance of C7: two nodes completing in reversed order still
yield the mapping keyed `a`, `b` in configuration order. -/
theorem parallel_keys_config_order_witness :
    Dict.keys [("a", "A"), ("b", "B")] = ["a", "b"] ∧
    processParallel
      [⟨"a", InputCtx.str "", fun _ => Except.ok "A"⟩,
       ⟨"b", InputCtx.str "", fun _ => Except.ok "B"⟩]
      [(0, Except.ok "A"), (1, Except.ok "B")] = .ok [("a", "A"), ("b", "B")] :=
  parallel_keys_config_order
    [⟨"a", InputCtx.str "", fun _ => Except.ok "A"⟩,
     ⟨"b", InputCtx.str "", fun _ => Except.ok "B"⟩]
    (InputData.str "Q")
    [(1, Except.ok "B"), (0, Except.ok "A")]
    [(0, Except.ok "A"), (1, Except.ok "B")]
    [("a", "A"), ("b", "B")]
    (by decide) (by decide) (by decide) rfl

/-- Claim C8 (confirmed): loading a set B over a store A in merge mode keeps
every entry of B and every entry of A whose key B does not claim; loading B
in replace mode leaves a store whose lookups are exactly B's. -/
theorem load_modes (A B : Dict StoredTemplate) (hB : (Dict.keys B).Nodup)
    (k : String) :
    (∀ v, Dict.lookupD B k = some v →
       Dict.lookupD (load_templates A B false) k = some v) ∧
    (Dict.lookupD B k = none →
       Dict.lookupD (load_templates A B false) k = Dict.lookupD A k) ∧
    Dict.lookupD (load_templates A B true) k = Dict.lookupD B k := by
  refine ⟨?_, ?_, ?_⟩
  · intro v hv
    have h := lookupD_updateD A B hB k
    simp only [load_templates, if_neg (by simp : ¬ false = true)]
    rw [h, hv]
  · intro hnone
    have h := lookupD_updateD A B hB k
    simp only [load_templates, if_neg (by simp : ¬ false = true)]
    rw [h, hnone]
  · simp [load_templates]

/-- Concrete instance of C8: after merging `b` over a store holding `a`, the
prior entry `a` is still there; after replacing, lookups follow only the
incoming set. -/
theorem load_modes_witness :
    Dict.lookupD (load_templates [("a", (⟨"x", [], []⟩ : StoredTemplate))]
      [("b", ⟨"y", [], []⟩)] false) "a" =
      Dict.lookupD [("a", (⟨"x", [], []⟩ : StoredTemplate))] "a" ∧
    Dict.lookupD (load_templates [("a", (⟨"x", [], []⟩ : StoredTemplate))]
      [("b", ⟨"y", [], []⟩)] true) "a" =
      Dict.lookupD [("b", (⟨"y", [], []⟩ : StoredTemplate))] "a" :=
  ⟨(load_modes [("a", ⟨"x", [], []⟩)] [("b", ⟨"y", [], []⟩)] (by decide) "a").2.1 rfl,
   (load_modes [("a", ⟨"x", [], []⟩)] [("b", ⟨"y", [], []⟩)] (by decide) "a").2.2⟩

/-- Claim C9 (confirmed): validating an empty template store raises
`No templates loaded` rather than succeeding vacuously. -/
theorem empty_store_validation :
    validate_templates ([] : Dict StoredTemplate) = .error "No templates loaded" :=
  rfl

/-- Claim C10 (confirmed): `add_node` raises on a node whose id is already
registered (before any mutation, so the registry is untouched), registers a
fresh id at the end of the registry, and thereby preserves distinctness of
the node ids within the layer. -/
theorem add_node_unique_ids (layer : LayerState) (node : RNode) :
    (Dict.containsKey layer.nodes node.node_id = true →
       add_node layer node =
         .error ("Node with id " ++ squote ++ node.node_id ++ squote ++
           " already exists in layer " ++ layer.layer_id)) ∧
    (∀ l2, add_node layer node = .ok l2 →
       Dict.containsKey layer.nodes node.node_id = false ∧
       l2.layer_id = layer.layer_id ∧
       Dict.keys l2.nodes = Dict.keys layer.nodes ++ [node.node_id] ∧
       ((Dict.keys layer.nodes).Nodup → (Dict.keys l2.nodes).Nodup)) := by
  constructor
  · intro h
    unfold add_node
    rw [if_pos h]
  · intro l2 h
    by_cases hc : Dict.containsKey layer.nodes node.node_id = true
    · unfold add_node at h
      rw [if_pos hc] at h
      cases h
    · have hcf : Dict.containsKey layer.nodes node.node_id = false := by
        cases hcc : Dict.containsKey layer.nodes node.node_id
        · rfl
        · exact absurd hcc hc
      unfold add_node at h
      rw [if_neg (by rw [hcf]; simp : ¬ Dict.containsKey layer.nodes node.node_id = true)] at h
      injection h with h
      subst h
      have hkeys := Dict.keys_insertD_of_not_containsKey layer.nodes node.node_id node hcf
      refine ⟨hcf, rfl, hkeys, ?_⟩
      intro hnodup
      rw [hkeys]
      have hid : node.node_id ∉ Dict.keys layer.nodes := by
        intro hmem
        have hsome := lookupD_isSome_of_mem_keys layer.nodes node.node_id hmem
        rw [Dict.containsKey] at hcf
        rw [hcf] at hsome
        cases hsome
      exact hnodup.append (List.nodup_singleton _)
        (by simp [List.disjoint_singleton]; exact hid)

/-- Concrete instance of C10: adding a node under an id the layer already
holds raises the duplicate-id error. -/
theorem add_node_unique_ids_witness :
    add_node ⟨"L1", [("a", ⟨"a", InputCtx.str "", fun _ => Except.ok ""⟩)]⟩
        ⟨"a", InputCtx.str "", fun _ => Except.ok ""⟩ =
      .error ("Node with id " ++ squote ++ "a" ++ squote ++
        " already exists in layer " ++ "L1") :=
  (add_node_unique_ids ⟨"L1", [("a", ⟨"a", InputCtx.str "", fun _ => Except.ok ""⟩)]⟩
    ⟨"a", InputCtx.str "", fun _ => Except.ok ""⟩).1 rfl

end EPN
